import Mathlib

/-!
Verification development for the aj-management-app repository.

Part I embeds the shipped employee-record CRUD backend
(`src/backend/database.js` plus the Express server): the `employees`
table with its `UNIQUE(email)` constraint and the
GET/POST/PUT/DELETE `/api/employees` handlers.

Part II embeds the real-time chat core.  The chat engine is described by
the repository's technical design document
(`docs/TECHNICAL_DESIGN_REALTIME_CHAT.md`) and by the specification
derived from it, but it is not implemented in the repository; the
operations below are therefore modelled from the spec, as indicated on
each definition, except where the design document carries executable
pseudocode (`MessageProcessor.processMessage`).
-/

set_option maxHeartbeats 1000000

namespace AjManagement

/-! ## Part I: employee CRUD backend -/

/-- One row of the `employees` table
(`id INTEGER PRIMARY KEY AUTOINCREMENT`, five `TEXT NOT NULL` columns,
`email` additionally `UNIQUE`). -/
structure Employee where
  id : Nat
  name : String
  email : String
  department : String
  role : String
  hireDate : String
deriving DecidableEq, Repr

/-- The `employees` table together with SQLite's `AUTOINCREMENT` counter
(the id handed to the next inserted row, surfaced as `this.lastID`). -/
structure EmployeesDb where
  rows : List Employee
  nextId : Nat
deriving DecidableEq, Repr

/-- A request body for POST/PUT `/api/employees`; each field may be absent
(`undefined` in JavaScript). -/
structure EmployeeBody where
  name : Option String
  email : Option String
  department : Option String
  role : Option String
  hireDate : Option String
deriving DecidableEq, Repr

/-- JavaScript truthiness of a possibly-missing string field: `undefined`
and the empty string are falsy, every other string is truthy. -/
def truthy : Option String → Bool
  | none => false
  | some s => !s.isEmpty

/-- The `if (!name || !email || !department || !role || !hireDate)`
validation guard shared by the POST and PUT handlers. -/
def allFieldsPresent (b : EmployeeBody) : Bool :=
  truthy b.name && truthy b.email && truthy b.department &&
    truthy b.role && truthy b.hireDate

/-- An HTTP response produced by the employee endpoints, carrying the
status code and the JSON payload relevant here. -/
inductive ApiResponse where
  | rejected (status : Nat) (error : String)
  | createdEmployee (status : Nat) (e : Employee)
  | okEmployee (status : Nat) (e : Employee)
  | okDeleted (status : Nat)
deriving DecidableEq, Repr

/-- Whether some row of the table already uses `email`
(the `UNIQUE(email)` constraint of the schema). -/
def emailTaken (db : EmployeesDb) (email : String) : Bool :=
  db.rows.any (fun r => r.email == email)

/-- The POST `/api/employees` handler: validate the body, insert, and map a
`UNIQUE constraint failed` error to 400 "Email already exists". -/
def postEmployee (db : EmployeesDb) (b : EmployeeBody) : ApiResponse × EmployeesDb :=
  if allFieldsPresent b then
    match b.name, b.email, b.department, b.role, b.hireDate with
    | some n, some e, some d, some r, some h =>
      if emailTaken db e then (.rejected 400 "Email already exists", db)
      else
        (.createdEmployee 201 ⟨db.nextId, n, e, d, r, h⟩,
         ⟨db.rows ++ [⟨db.nextId, n, e, d, r, h⟩], db.nextId + 1⟩)
    | _, _, _, _, _ => (.rejected 400 "All fields are required", db)
  else (.rejected 400 "All fields are required", db)

/-- The GET `/api/employees/:id` handler:
`SELECT * FROM employees WHERE id = ?`, 404 when no row matches. -/
def getEmployee (db : EmployeesDb) (id : Nat) : ApiResponse :=
  match db.rows.find? (fun r => r.id == id) with
  | none => .rejected 404 "Employee not found"
  | some r => .okEmployee 200 r

/-- The PUT `/api/employees/:id` handler: validate the body, run the
`UPDATE`, map a unique-email violation to 400, and report 404 when
`this.changes === 0` (no row with that id; an `UPDATE` matching no row
cannot raise the constraint error). -/
def putEmployee (db : EmployeesDb) (id : Nat) (b : EmployeeBody) :
    ApiResponse × EmployeesDb :=
  if allFieldsPresent b then
    match b.name, b.email, b.department, b.role, b.hireDate with
    | some n, some e, some d, some r, some h =>
      if db.rows.any (fun row => row.id == id) then
        if db.rows.any (fun row => !(row.id == id) && row.email == e) then
          (.rejected 400 "Email already exists", db)
        else
          (.okEmployee 200 ⟨id, n, e, d, r, h⟩,
           ⟨db.rows.map (fun row => if row.id = id then ⟨id, n, e, d, r, h⟩ else row),
            db.nextId⟩)
      else (.rejected 404 "Employee not found", db)
    | _, _, _, _, _ => (.rejected 400 "All fields are required", db)
  else (.rejected 400 "All fields are required", db)

/-- The DELETE `/api/employees/:id` handler:
`DELETE FROM employees WHERE id = ?`, 404 when `this.changes === 0`. -/
def deleteEmployee (db : EmployeesDb) (id : Nat) : ApiResponse × EmployeesDb :=
  if db.rows.any (fun row => row.id == id) then
    (.okDeleted 200, ⟨db.rows.filter (fun row => !(row.id == id)), db.nextId⟩)
  else (.rejected 404 "Employee not found", db)

/-! ## Part II: real-time chat core (documented, unimplemented) -/

/-- Delivery status of a message for one recipient
(`status VARCHAR(50)` of the `message_delivery_status` table). -/
inductive DStatus where
  | sent
  | delivered
  | read
deriving DecidableEq, Repr

/-- Position of a status in the monotone order `sent → delivered → read`. -/
def statusRank : DStatus → Nat
  | .sent => 0
  | .delivered => 1
  | .read => 2

/-- One row of `message_delivery_status`: `UNIQUE(message_id, user_id)`. -/
structure DeliveryRecord where
  messageId : Nat
  userId : Nat
  status : DStatus
deriving DecidableEq, Repr

/-- The `message_delivery_status` table (at most one row per key, kept as
an invariant by `recordDelivery`). -/
abbrev DeliveryTable := List DeliveryRecord

/-- Status currently stored for a (message, recipient) pair. -/
def lookupDelivery : DeliveryTable → Nat → Nat → Option DStatus
  | [], _, _ => none
  | e :: rest, mid, uid =>
    if e.messageId == mid && e.userId == uid then some e.status
    else lookupDelivery rest mid uid

/-- Modelled from the spec: `recordDelivery(messageId, userId, status)` of
the Message Store is not implemented in the repository; per the spec it
enforces the monotone ordering `sent → delivered → read`, treats an
attempt to set an earlier (or equal) status as a silent no-op, and may set
a later status directly, skipping intermediate states. -/
def recordDelivery : DeliveryTable → Nat → Nat → DStatus → DeliveryTable
  | [], mid, uid, s => [⟨mid, uid, s⟩]
  | e :: rest, mid, uid, s =>
    if e.messageId == mid && e.userId == uid then
      if statusRank e.status < statusRank s then ⟨mid, uid, s⟩ :: rest
      else e :: rest
    else e :: recordDelivery rest mid uid s

/-- An inbound message before persistence: owning conversation, sender,
opaque encrypted content, content-type tag, encryption metadata, optional
reply target (the `message:send` wire event / `messages` table columns). -/
structure ChatMessage where
  conversationId : Nat
  senderId : Nat
  content : String
  contentType : String
  encryptionMetadata : String
  replyTo : Option Nat
deriving DecidableEq, Repr

/-- A persisted message: the inbound fields plus the assigned id, the
per-conversation sequence position, the edited/deleted flags and the
creation time (`messages` table row). -/
structure StoredMessage where
  id : Nat
  conversationId : Nat
  senderId : Nat
  content : String
  contentType : String
  encryptionMetadata : String
  replyTo : Option Nat
  seq : Nat
  isEdited : Bool
  isDeleted : Bool
  createdAt : Nat
deriving DecidableEq, Repr

/-- The Message Store: the append-only `messages` table and the counter
for the next assigned message id. -/
structure MessageStore where
  messages : List StoredMessage
  nextId : Nat
deriving DecidableEq, Repr

/-- Number of messages stored for one conversation. -/
def convCount (s : MessageStore) (cid : Nat) : Nat :=
  (s.messages.filter (fun m => m.conversationId == cid)).length

/-- Sequence positions of one conversation's messages, in storage order. -/
def convSeqs (s : MessageStore) (cid : Nat) : List Nat :=
  (s.messages.filter (fun m => m.conversationId == cid)).map (fun m => m.seq)

/-- Modelled from the spec: `append(message)` of the Message Store is not
implemented in the repository (the design document only carries the
`messages` schema); per the spec it persists the message with a fresh id
and a per-conversation sequence position assigned atomically with the
insert, monotonically increasing within the conversation and independent
of the wall-clock time `now`. -/
def append (s : MessageStore) (m : ChatMessage) (now : Nat) :
    StoredMessage × MessageStore :=
  let stored : StoredMessage :=
    { id := s.nextId
      conversationId := m.conversationId
      senderId := m.senderId
      content := m.content
      contentType := m.contentType
      encryptionMetadata := m.encryptionMetadata
      replyTo := m.replyTo
      seq := convCount s m.conversationId + 1
      isEdited := false
      isDeleted := false
      createdAt := now }
  (stored, ⟨s.messages ++ [stored], s.nextId + 1⟩)

/-- A store is sequence-well-formed for a conversation when that
conversation's stored sequence positions are exactly `1, 2, …, n` in
storage order — true of every store built by `append` from empty. -/
def SeqWellFormed (s : MessageStore) (cid : Nat) : Prop :=
  convSeqs s cid = List.range' 1 (convCount s cid)

/-- Modelled from the spec: `fetchPage(conversationId, cursor, limit)` of
the Message Store is not implemented in the repository (the REST surface
in the design document only sketches limit/offset parameters); per the
spec it returns a reverse-chronological page bounded by `limit` of the
messages whose sequence position precedes the cursor, the cursor encoding
the last-seen sequence position. -/
def fetchPage (s : MessageStore) (cid cursor limit : Nat) : List StoredMessage :=
  ((s.messages.filter
      (fun m => m.conversationId == cid && decide (m.seq < cursor))).reverse).take limit

/-- Apply a batch of concurrent `append` calls (message, wall-clock time). -/
def applyAppends (s : MessageStore) (batch : List (ChatMessage × Nat)) : MessageStore :=
  batch.foldl (fun acc p => (append acc p.1 p.2).2) s

/-- A paginated traversal: before each page an arbitrary batch of
concurrent appends lands in the store, then one page is fetched at the
current cursor; the cursor advances to the sequence position of the last
message of the page, and the traversal ends on an empty page (or when the
schedule runs out). -/
def runTraversal (cid limit : Nat) :
    MessageStore → Nat → List (List (ChatMessage × Nat)) → List StoredMessage
  | _, _, [] => []
  | s, cursor, batch :: rest =>
    let s' := applyAppends s batch
    let page := fetchPage s' cid cursor limit
    match page.getLast? with
    | none => []
    | some last => page ++ runTraversal cid limit s' last.seq rest

/-- Failure outcomes of `edit(messageId, newContent)`; the spec names
`NotFound` and `Forbidden` and leaves the error for an already-deleted
message unnamed (`succeeds only while is_deleted is false`). -/
inductive EditError where
  | notFound
  | forbidden
  | messageDeleted
deriving DecidableEq, Repr

/-- Result of `edit`: the updated message, or a failure. -/
inductive EditResult where
  | ok (m : StoredMessage)
  | failed (e : EditError)
deriving DecidableEq, Repr

/-- Modelled from the spec: `edit(messageId, newContent)` of the Message
Store is not implemented in the repository; per the spec it fails with
`NotFound` when no such message exists, with `Forbidden` when the caller
is not the original sender, succeeds only while `is_deleted` is false,
and on success replaces the content and sets the edited flag while
preserving identity and ordering position. -/
def edit (s : MessageStore) (callerId mid : Nat) (newContent : String) :
    EditResult × MessageStore :=
  match s.messages.find? (fun m => m.id == mid) with
  | none => (.failed .notFound, s)
  | some m =>
    if m.senderId == callerId then
      if m.isDeleted then (.failed .messageDeleted, s)
      else
        let m' := { m with content := newContent, isEdited := true }
        (.ok m', ⟨s.messages.map (fun x => if x.id = mid then m' else x), s.nextId⟩)
    else (.failed .forbidden, s)

/-- Environment of one pipeline run: whether structural validation and
encryption-metadata verification pass, and whether the Message Store is
available. -/
structure PipelineEnv where
  validateOk : Bool
  encryptionOk : Bool
  storeAvailable : Bool
deriving DecidableEq, Repr

/-- Rejection reasons of the Message Pipeline relevant here. -/
inductive PipelineError where
  | invalidMessage
  | persistenceFailure
deriving DecidableEq, Repr

/-- Terminal state of the pipeline for one inbound message. -/
inductive PipelineResult where
  | acknowledged (m : StoredMessage)
  | rejected (e : PipelineError)
deriving DecidableEq, Repr

/-- Observable outcome of one pipeline run: the terminal result, the
appends performed on the Message Store, and the messages published on the
Distribution Bus (each publication is what subscribers see as a
`message-new` event). -/
structure PipelineOutcome where
  result : PipelineResult
  appends : List StoredMessage
  published : List StoredMessage
deriving DecidableEq, Repr

/-- `MessageProcessor.processMessage` from the design document: validate,
verify encryption, persist via `append`, then publish the persisted
message. Modelled from the spec: the pseudocode carries no error paths,
so the terminal `Rejected` outcomes (`InvalidMessage` on validation
failure, `PersistenceFailure` on store unavailability, each before any
publication) follow the spec's pipeline state machine. -/
def processMessage (env : PipelineEnv) (s : MessageStore) (m : ChatMessage)
    (now : Nat) : PipelineOutcome × MessageStore :=
  if !env.validateOk || !env.encryptionOk then
    (⟨.rejected .invalidMessage, [], []⟩, s)
  else if !env.storeAvailable then
    (⟨.rejected .persistenceFailure, [], []⟩, s)
  else
    let r := append s m now
    (⟨.acknowledged r.1, [r.1], [r.1]⟩, r.2)

/-- A message event delivered by the Distribution Bus to a Connection
Handler (the payload of a `message-new` publication). -/
structure BusMessageEvent where
  messageId : Nat
  conversationId : Nat
  senderId : Nat
  content : String
deriving DecidableEq, Repr

/-- A wire event sent to the client. -/
inductive WireEvent where
  | messageNew (ev : BusMessageEvent)
deriving DecidableEq, Repr

/-- Connection Handler state: the in-memory window of message ids already
forwarded to this client (the dedup window of the design). -/
structure ConnHandler where
  seenIds : List Nat
deriving DecidableEq, Repr

/-- Modelled from the spec: the Connection Handler's bus-event handling is
not implemented in the repository; per the spec a bus-delivered message
event is forwarded to the client as `message-new` unless its message id is
already in the dedup window, and the handler never writes the Message
Store (block-list filtering by the external user-management collaborator
is outside the core and not modelled). -/
def onBusMessage (h : ConnHandler) (store : MessageStore) (ev : BusMessageEvent) :
    ConnHandler × MessageStore × List WireEvent :=
  if ev.messageId ∈ h.seenIds then (h, store, [])
  else (⟨ev.messageId :: h.seenIds⟩, store, [.messageNew ev])

/-- Deliver the same bus message event twice in a row (at-least-once bus
delivery), collecting the client-visible events of both deliveries. -/
def deliverTwice (h : ConnHandler) (store : MessageStore) (ev : BusMessageEvent) :
    ConnHandler × MessageStore × List WireEvent :=
  let r1 := onBusMessage h store ev
  let r2 := onBusMessage r1.1 r1.2.1 ev
  (r2.1, r2.2.1, r1.2.2 ++ r2.2.2)

/-- One live session of the Session Registry: its id, the owning user and
the session handle. -/
structure SessionEntry where
  sessionId : Nat
  userId : Nat
  handle : Nat
deriving DecidableEq, Repr

/-- The Session Registry: live sessions and the next session id. -/
structure SessionRegistry where
  sessions : List SessionEntry
  nextSessionId : Nat
deriving DecidableEq, Repr

/-- Modelled from the spec: `register(userId, sessionHandle)` of the
Session Registry is not implemented in the repository; per the spec it
records a new live session for the user (multiple concurrent sessions per
user are permitted) and returns its fresh session id. -/
def register (r : SessionRegistry) (userId handle : Nat) : Nat × SessionRegistry :=
  (r.nextSessionId,
   ⟨⟨r.nextSessionId, userId, handle⟩ :: r.sessions, r.nextSessionId + 1⟩)

/-- Modelled from the spec: `unregister(sessionId)` of the Session
Registry is not implemented in the repository; per the spec it removes the
session with that id and is an idempotent no-op on an unknown id. -/
def unregister (r : SessionRegistry) (sid : Nat) : SessionRegistry :=
  ⟨r.sessions.filter (fun s => !(s.sessionId == sid)), r.nextSessionId⟩

/-- Modelled from the spec: `sessionsFor(userId)` of the Session Registry
is not implemented in the repository; per the spec it returns the handles
of the user's live sessions (empty when the user is offline). -/
def sessionsFor (r : SessionRegistry) (userId : Nat) : List Nat :=
  (r.sessions.filter (fun s => s.userId == userId)).map (fun s => s.handle)

/-- Stores reachable from `s` by a sequence of later `append` calls (to
any conversation, at any wall-clock times). -/
inductive Reaches : MessageStore → MessageStore → Prop where
  | refl (s : MessageStore) : Reaches s s
  | step (s t : MessageStore) (m : ChatMessage) (now : Nat) :
      Reaches s t → Reaches s (append t m now).2

end AjManagement

namespace AjManagement

/-! ## Theorems for the employee CRUD claims -/

/-- C8: a POST `/api/employees` body with any field missing or falsy is
answered 400 "All fields are required" with the table untouched; a body
with all five fields present and truthy whose email is not yet taken is
answered 201 with the created employee carrying the newly assigned id and
the submitted values, appended to the table. -/
theorem postEmployee_validation_and_create (db : EmployeesDb) (b : EmployeeBody) :
    (allFieldsPresent b = false →
      postEmployee db b = (.rejected 400 "All fields are required", db)) ∧
    (∀ n e d r h, b.name = some n → b.email = some e → b.department = some d →
      b.role = some r → b.hireDate = some h →
      allFieldsPresent b = true → emailTaken db e = false →
      postEmployee db b =
        (.createdEmployee 201 ⟨db.nextId, n, e, d, r, h⟩,
         ⟨db.rows ++ [⟨db.nextId, n, e, d, r, h⟩], db.nextId + 1⟩)) := by
  constructor
  · intro hv
    simp [postEmployee, hv]
  · intro n e d r h hn he hd hr hh hv ht
    simp [postEmployee, hv, hn, he, hd, hr, hh, ht]

theorem postEmployee_validation_and_create_witness :
    (postEmployee ⟨[], 1⟩ ⟨some "Ada", some "", some "Eng", some "Dev", some "2024-01-01"⟩ =
      (.rejected 400 "All fields are required", ⟨[], 1⟩)) ∧
    (postEmployee ⟨[], 1⟩
        ⟨some "Ada", some "ada@aj.com", some "Eng", some "Dev", some "2024-01-01"⟩ =
      (.createdEmployee 201 ⟨1, "Ada", "ada@aj.com", "Eng", "Dev", "2024-01-01"⟩,
       ⟨[⟨1, "Ada", "ada@aj.com", "Eng", "Dev", "2024-01-01"⟩], 2⟩)) :=
  ⟨(postEmployee_validation_and_create ⟨[], 1⟩
      ⟨some "Ada", some "", some "Eng", some "Dev", some "2024-01-01"⟩).1 (by decide),
   (postEmployee_validation_and_create ⟨[], 1⟩
      ⟨some "Ada", some "ada@aj.com", some "Eng", some "Dev", some "2024-01-01"⟩).2
      "Ada" "ada@aj.com" "Eng" "Dev" "2024-01-01" rfl rfl rfl rfl rfl (by decide) (by decide)⟩

/-- C9: a POST `/api/employees` request with a complete truthy body whose
email equals the email of an existing row trips the `UNIQUE(email)`
constraint and is answered 400 "Email already exists", leaving the
`employees` table unchanged. -/
theorem postEmployee_duplicate_email (db : EmployeesDb) (b : EmployeeBody)
    (n e d r h : String)
    (hn : b.name = some n) (he : b.email = some e) (hd : b.department = some d)
    (hr : b.role = some r) (hh : b.hireDate = some h)
    (hv : allFieldsPresent b = true)
    (htaken : ∃ row ∈ db.rows, row.email = e) :
    postEmployee db b = (.rejected 400 "Email already exists", db) := by
  have ht : emailTaken db e = true := by
    obtain ⟨row, hrow, hre⟩ := htaken
    simp [emailTaken, List.any_eq_true]
    exact ⟨row, hrow, by simp [hre]⟩
  simp [postEmployee, hv, hn, he, hd, hr, hh, ht]

theorem postEmployee_duplicate_email_witness :
    postEmployee ⟨[⟨1, "Ada", "ada@aj.com", "Eng", "Dev", "2024-01-01"⟩], 2⟩
        ⟨some "Bob", some "ada@aj.com", some "Ops", some "Mgr", some "2024-02-02"⟩ =
      (.rejected 400 "Email already exists",
       ⟨[⟨1, "Ada", "ada@aj.com", "Eng", "Dev", "2024-01-01"⟩], 2⟩) :=
  postEmployee_duplicate_email
    ⟨[⟨1, "Ada", "ada@aj.com", "Eng", "Dev", "2024-01-01"⟩], 2⟩
    ⟨some "Bob", some "ada@aj.com", some "Ops", some "Mgr", some "2024-02-02"⟩
    "Bob" "ada@aj.com" "Ops" "Mgr" "2024-02-02" rfl rfl rfl rfl rfl (by decide)
    ⟨⟨1, "Ada", "ada@aj.com", "Eng", "Dev", "2024-01-01"⟩, by simp, rfl⟩

/-- C10: for an id matching no row of the `employees` table, GET answers
404 "Employee not found", and PUT (with a complete valid body) and DELETE
answer the same 404 and leave the table unchanged — deletion of an
unknown id is reported as an error, not absorbed as a no-op. -/
theorem unknown_id_not_found (db : EmployeesDb) (id : Nat) (b : EmployeeBody)
    (hno : ∀ row ∈ db.rows, row.id ≠ id) :
    getEmployee db id = .rejected 404 "Employee not found" ∧
    (allFieldsPresent b = true →
      putEmployee db id b = (.rejected 404 "Employee not found", db)) ∧
    deleteEmployee db id = (.rejected 404 "Employee not found", db) := by
  have hfind : db.rows.find? (fun r => r.id == id) = none := by
    simp [List.find?_eq_none]
    exact hno
  have hany : db.rows.any (fun row => row.id == id) = false := by
    simp [List.any_eq_false]
    exact hno
  refine ⟨?_, ?_, ?_⟩
  · simp [getEmployee, hfind]
  · intro hv
    obtain ⟨n, hn⟩ : ∃ n, b.name = some n := by
      cases hb : b.name with
      | none => exfalso; simp [allFieldsPresent, truthy, hb] at hv
      | some n => exact ⟨n, rfl⟩
    obtain ⟨e, he⟩ : ∃ e, b.email = some e := by
      cases hb : b.email with
      | none => exfalso; simp [allFieldsPresent, truthy, hb] at hv
      | some e => exact ⟨e, rfl⟩
    obtain ⟨d, hd⟩ : ∃ d, b.department = some d := by
      cases hb : b.department with
      | none => exfalso; simp [allFieldsPresent, truthy, hb] at hv
      | some d => exact ⟨d, rfl⟩
    obtain ⟨r, hr⟩ : ∃ r, b.role = some r := by
      cases hb : b.role with
      | none => exfalso; simp [allFieldsPresent, truthy, hb] at hv
      | some r => exact ⟨r, rfl⟩
    obtain ⟨hh, hhh⟩ : ∃ hh, b.hireDate = some hh := by
      cases hb : b.hireDate with
      | none => exfalso; simp [allFieldsPresent, truthy, hb] at hv
      | some hh => exact ⟨hh, rfl⟩
    simp [putEmployee, hv, hn, he, hd, hr, hhh, hany]
  · simp [deleteEmployee, hany]

theorem unknown_id_not_found_witness :
    getEmployee ⟨[⟨1, "Ada", "ada@aj.com", "Eng", "Dev", "2024-01-01"⟩], 2⟩ 7 =
      .rejected 404 "Employee not found" ∧
    putEmployee ⟨[⟨1, "Ada", "ada@aj.com", "Eng", "Dev", "2024-01-01"⟩], 2⟩ 7
        ⟨some "Bob", some "bob@aj.com", some "Ops", some "Mgr", some "2024-02-02"⟩ =
      (.rejected 404 "Employee not found",
       ⟨[⟨1, "Ada", "ada@aj.com", "Eng", "Dev", "2024-01-01"⟩], 2⟩) ∧
    deleteEmployee ⟨[⟨1, "Ada", "ada@aj.com", "Eng", "Dev", "2024-01-01"⟩], 2⟩ 7 =
      (.rejected 404 "Employee not found",
       ⟨[⟨1, "Ada", "ada@aj.com", "Eng", "Dev", "2024-01-01"⟩], 2⟩) :=
  ⟨(unknown_id_not_found ⟨[⟨1, "Ada", "ada@aj.com", "Eng", "Dev", "2024-01-01"⟩], 2⟩ 7
      ⟨some "Bob", some "bob@aj.com", some "Ops", some "Mgr", some "2024-02-02"⟩
      (by decide)).1,
   (unknown_id_not_found ⟨[⟨1, "Ada", "ada@aj.com", "Eng", "Dev", "2024-01-01"⟩], 2⟩ 7
      ⟨some "Bob", some "bob@aj.com", some "Ops", some "Mgr", some "2024-02-02"⟩
      (by decide)).2.1 (by decide),
   (unknown_id_not_found ⟨[⟨1, "Ada", "ada@aj.com", "Eng", "Dev", "2024-01-01"⟩], 2⟩ 7
      ⟨some "Bob", some "bob@aj.com", some "Ops", some "Mgr", some "2024-02-02"⟩
      (by decide)).2.2⟩


/-! ## Theorems for the Session Registry claim -/

/-- C7: `unregister` with a session id not present in the registry leaves
the registry unchanged (an idempotent no-op, never an error), and when a
user has several registered sessions, unregistering one of them leaves
each remaining session's handle in `sessionsFor(userId)`. -/
theorem unregister_noop_and_keeps_others (r : SessionRegistry) (sid : Nat) :
    ((∀ s ∈ r.sessions, s.sessionId ≠ sid) → unregister r sid = r) ∧
    (∀ uid s, s ∈ r.sessions → s.sessionId ≠ sid → s.userId = uid →
      s.handle ∈ sessionsFor (unregister r sid) uid) := by
  constructor
  · intro hno
    have hfil : r.sessions.filter (fun s => !(s.sessionId == sid)) = r.sessions :=
      List.filter_eq_self.mpr (fun a ha => by simp [hno a ha])
    simp [unregister, hfil]
  · intro uid s hs hne huid
    refine List.mem_map.mpr ⟨s, ?_, rfl⟩
    refine List.mem_filter.mpr ⟨?_, by simp [huid]⟩
    exact List.mem_filter.mpr ⟨hs, by simp [hne]⟩

theorem unregister_noop_and_keeps_others_witness :
    unregister ⟨[⟨1, 10, 100⟩, ⟨2, 10, 200⟩], 3⟩ 99 =
      ⟨[⟨1, 10, 100⟩, ⟨2, 10, 200⟩], 3⟩ ∧
    (100 : Nat) ∈ sessionsFor (unregister ⟨[⟨1, 10, 100⟩, ⟨2, 10, 200⟩], 3⟩ 2) 10 :=
  ⟨(unregister_noop_and_keeps_others ⟨[⟨1, 10, 100⟩, ⟨2, 10, 200⟩], 3⟩ 99).1 (by decide),
   (unregister_noop_and_keeps_others ⟨[⟨1, 10, 100⟩, ⟨2, 10, 200⟩], 3⟩ 2).2 10
     ⟨1, 10, 100⟩ (by decide) (by decide) rfl⟩

/-! ## Theorems for the delivery-status claim -/

theorem statusRank_le_two (s : DStatus) : statusRank s ≤ 2 := by
  cases s <;> simp [statusRank]

/-- Recording under one key never disturbs the status stored under a
different key. -/
theorem lookupDelivery_recordDelivery_other (t : DeliveryTable) (a b mid uid : Nat)
    (s : DStatus) (hne : ¬(a = mid ∧ b = uid)) :
    lookupDelivery (recordDelivery t a b s) mid uid = lookupDelivery t mid uid := by
  induction t with
  | nil =>
    simp only [recordDelivery, lookupDelivery]
    have : ¬(a = mid ∧ b = uid) := hne
    split
    · rename_i hcond
      simp only [Bool.and_eq_true, beq_iff_eq] at hcond
      exact absurd hcond hne
    · rfl
  | cons e rest ih =>
    simp only [recordDelivery]
    by_cases hk : e.messageId = a ∧ e.userId = b
    · obtain ⟨h1, h2⟩ := hk
      have hcond : (e.messageId == a && e.userId == b) = true := by simp [h1, h2]
      have hc2 : (e.messageId == mid && e.userId == uid) = false := by
        rcases Decidable.not_and_iff_or_not.mp hne with h | h <;>
          simp [h1, h2, h]
      rw [if_pos hcond]
      by_cases hr : statusRank e.status < statusRank s
      · rw [if_pos hr]
        have hc1 : ((⟨a, b, s⟩ : DeliveryRecord).messageId == mid &&
            (⟨a, b, s⟩ : DeliveryRecord).userId == uid) = false := by
          rcases Decidable.not_and_iff_or_not.mp hne with h | h <;> simp [h]
        simp [lookupDelivery, hc1, hc2]
      · rw [if_neg hr]
    · have hcond : (e.messageId == a && e.userId == b) = false := by
        rcases Decidable.not_and_iff_or_not.mp hk with h | h <;> simp [h]
      rw [if_neg (by simp [hcond])]
      simp only [lookupDelivery]
      by_cases hm : (e.messageId == mid && e.userId == uid) = true
      · rw [if_pos hm, if_pos hm]
      · rw [if_neg (by simp [hm]), if_neg (by simp [hm])]
        exact ih

/-- Once a pair's stored status is `read`, a later `recordDelivery` call —
under any key, with any status — leaves it `read`. -/
theorem lookupDelivery_recordDelivery_read (t : DeliveryTable) (mid uid a b : Nat)
    (s : DStatus) (h : lookupDelivery t mid uid = some .read) :
    lookupDelivery (recordDelivery t a b s) mid uid = some .read := by
  by_cases hk : a = mid ∧ b = uid
  · obtain ⟨h1, h2⟩ := hk
    subst h1; subst h2
    induction t with
    | nil => simp [lookupDelivery] at h
    | cons e rest ih =>
      simp only [recordDelivery]
      by_cases hm : (e.messageId == a && e.userId == b) = true
      · rw [if_pos hm]
        simp only [lookupDelivery, hm, if_pos] at h
        have hread : e.status = .read := by
          simpa using h
        have hr : ¬(statusRank e.status < statusRank s) := by
          rw [hread]
          cases s <;> simp [statusRank]
        rw [if_neg hr]
        simp [lookupDelivery, hm, hread]
      · rw [if_neg (by simp [hm])]
        simp only [lookupDelivery, hm] at h
        rw [if_neg (by simp [hm])] at h
        simp only [lookupDelivery]
        rw [if_neg (by simp [hm])]
        exact ih h
  · rw [lookupDelivery_recordDelivery_other t a b mid uid s hk]
    exact h

/-- C2: `recordDelivery` is monotone in `sent < delivered < read` for each
(message, recipient) pair: a status not later than the stored one is a
silent no-op that leaves the table unchanged, a later status is stored
(including `read` directly when nothing was recorded for the pair), and a
pair whose status is `read` is still `read` after any further sequence of
`recordDelivery` calls. -/
theorem recordDelivery_monotone (t : DeliveryTable) (mid uid : Nat) (s : DStatus) :
    (∀ cur, lookupDelivery t mid uid = some cur → statusRank s ≤ statusRank cur →
      recordDelivery t mid uid s = t) ∧
    (∀ cur, lookupDelivery t mid uid = some cur → statusRank cur < statusRank s →
      lookupDelivery (recordDelivery t mid uid s) mid uid = some s) ∧
    (lookupDelivery t mid uid = none →
      lookupDelivery (recordDelivery t mid uid s) mid uid = some s) ∧
    (lookupDelivery t mid uid = some .read →
      ∀ calls : List (Nat × Nat × DStatus),
        lookupDelivery
          (calls.foldl (fun acc c => recordDelivery acc c.1 c.2.1 c.2.2) t) mid uid
          = some .read) := by
  refine ⟨?_, ?_, ?_, ?_⟩
  · intro cur hcur hle
    induction t with
    | nil => simp [lookupDelivery] at hcur
    | cons e rest ih =>
      simp only [recordDelivery]
      by_cases hm : (e.messageId == mid && e.userId == uid) = true
      · rw [if_pos hm]
        simp only [lookupDelivery, hm, if_pos] at hcur
        injection hcur with hcur'
        rw [if_neg (by rw [hcur']; omega)]
      · rw [if_neg (by simp [hm])]
        simp only [lookupDelivery] at hcur
        rw [if_neg (by simp [hm])] at hcur
        rw [ih hcur]
  · intro cur hcur hlt
    induction t with
    | nil => simp [lookupDelivery] at hcur
    | cons e rest ih =>
      simp only [recordDelivery]
      by_cases hm : (e.messageId == mid && e.userId == uid) = true
      · rw [if_pos hm]
        simp only [lookupDelivery, hm, if_pos] at hcur
        injection hcur with hcur'
        rw [if_pos (by rw [hcur']; omega)]
        simp [lookupDelivery]
      · rw [if_neg (by simp [hm])]
        simp only [lookupDelivery] at hcur
        rw [if_neg (by simp [hm])] at hcur
        simp only [lookupDelivery]
        rw [if_neg (by simp [hm])]
        exact ih hcur
  · intro hnone
    induction t with
    | nil => simp [recordDelivery, lookupDelivery]
    | cons e rest ih =>
      simp only [lookupDelivery] at hnone
      by_cases hm : (e.messageId == mid && e.userId == uid) = true
      · rw [if_pos hm] at hnone
        exact absurd hnone (by simp)
      · rw [if_neg (by simp [hm])] at hnone
        simp only [recordDelivery]
        rw [if_neg (by simp [hm])]
        simp only [lookupDelivery]
        rw [if_neg (by simp [hm])]
        exact ih hnone
  · intro hread calls
    induction calls generalizing t with
    | nil => simpa using hread
    | cons c rest ih =>
      simp only [List.foldl_cons]
      exact ih _ (lookupDelivery_recordDelivery_read t mid uid c.1 c.2.1 c.2.2 hread)

theorem recordDelivery_monotone_witness :
    (recordDelivery [⟨7, 2, .delivered⟩] 7 2 .sent = [⟨7, 2, .delivered⟩]) ∧
    (lookupDelivery (recordDelivery [⟨7, 2, .delivered⟩] 7 2 .read) 7 2 =
      some .read) ∧
    (lookupDelivery (recordDelivery [] 7 2 .read) 7 2 = some .read) ∧
    (lookupDelivery
      (List.foldl (fun acc c => recordDelivery acc c.1 c.2.1 c.2.2)
        [⟨7, 2, DStatus.read⟩] [(7, 2, DStatus.delivered), (7, 2, DStatus.sent)]) 7 2 =
      some .read) :=
  ⟨(recordDelivery_monotone [⟨7, 2, .delivered⟩] 7 2 .sent).1 .delivered (by decide)
      (by decide),
   (recordDelivery_monotone [⟨7, 2, .delivered⟩] 7 2 .read).2.1 .delivered (by decide)
      (by decide),
   (recordDelivery_monotone [] 7 2 .read).2.2.1 (by decide),
   (recordDelivery_monotone [⟨7, 2, .read⟩] 7 2 .read).2.2.2 (by decide)
      [(7, 2, .delivered), (7, 2, .sent)]⟩

/-! ## Theorems for the Message Pipeline claim -/

/-- C1: every message published on the Distribution Bus by a pipeline run
was appended to the Message Store by that same run (publication never
precedes the durable append), and when the store is unavailable after
validation the run terminates in `Rejected` with `PersistenceFailure`,
publishes nothing (no `message-new` event is observable), and leaves the
store untouched. -/
theorem processMessage_persist_before_publish (env : PipelineEnv)
    (s : MessageStore) (m : ChatMessage) (now : Nat) :
    (∀ x ∈ (processMessage env s m now).1.published,
      x ∈ (processMessage env s m now).1.appends ∧
      x ∈ (processMessage env s m now).2.messages) ∧
    (env.validateOk = true → env.encryptionOk = true →
      env.storeAvailable = false →
      (processMessage env s m now).1.result = .rejected .persistenceFailure ∧
      (processMessage env s m now).1.published = [] ∧
      (processMessage env s m now).2 = s) := by
  constructor
  · intro x hx
    by_cases h1 : env.validateOk
    · by_cases h2 : env.encryptionOk
      · by_cases h3 : env.storeAvailable
        · simp [processMessage, h1, h2, h3] at hx ⊢
          simp [hx, append]
        · simp [processMessage, h1, h2, h3] at hx
      · simp [processMessage, h1, h2] at hx
    · simp [processMessage, h1] at hx
  · intro h1 h2 h3
    simp [processMessage, h1, h2, h3]

theorem processMessage_persist_before_publish_witness :
    ((⟨0, 1, 2, "c", "text", "meta", none, 1, false, false, 9⟩ : StoredMessage) ∈
        (processMessage ⟨true, true, true⟩ ⟨[], 0⟩ ⟨1, 2, "c", "text", "meta", none⟩ 9).1.appends ∧
      (⟨0, 1, 2, "c", "text", "meta", none, 1, false, false, 9⟩ : StoredMessage) ∈
        (processMessage ⟨true, true, true⟩ ⟨[], 0⟩ ⟨1, 2, "c", "text", "meta", none⟩ 9).2.messages) ∧
    ((processMessage ⟨true, true, false⟩ ⟨[], 0⟩ ⟨1, 2, "c", "text", "meta", none⟩ 9).1.result =
        .rejected .persistenceFailure ∧
      (processMessage ⟨true, true, false⟩ ⟨[], 0⟩ ⟨1, 2, "c", "text", "meta", none⟩ 9).1.published = [] ∧
      (processMessage ⟨true, true, false⟩ ⟨[], 0⟩ ⟨1, 2, "c", "text", "meta", none⟩ 9).2 = ⟨[], 0⟩) :=
  ⟨(processMessage_persist_before_publish ⟨true, true, true⟩ ⟨[], 0⟩
      ⟨1, 2, "c", "text", "meta", none⟩ 9).1
      ⟨0, 1, 2, "c", "text", "meta", none, 1, false, false, 9⟩ (by decide),
   (processMessage_persist_before_publish ⟨true, true, false⟩ ⟨[], 0⟩
      ⟨1, 2, "c", "text", "meta", none⟩ 9).2 rfl rfl rfl⟩

/-! ## Theorems for the edit claim -/

/-- C4: `edit(messageId, newContent)` fails with `NotFound` when no
message with that id exists; fails with `Forbidden` when the caller is not
the original sender, leaving the store (hence that message's content)
unchanged; and succeeds only while the message's `is_deleted` flag is
false. -/
theorem edit_notFound_forbidden_deleted (s : MessageStore) (callerId mid : Nat)
    (nc : String) :
    (s.messages.find? (fun x => x.id == mid) = none →
      edit s callerId mid nc = (.failed .notFound, s)) ∧
    (∀ m, s.messages.find? (fun x => x.id == mid) = some m →
      m.senderId ≠ callerId →
      edit s callerId mid nc = (.failed .forbidden, s)) ∧
    (∀ r t, edit s callerId mid nc = (.ok r, t) →
      ∃ m, s.messages.find? (fun x => x.id == mid) = some m ∧
        m.isDeleted = false) := by
  refine ⟨?_, ?_, ?_⟩
  · intro h
    simp [edit, h]
  · intro m hm hne
    simp [edit, hm, hne]
  · intro r t h
    cases hf : s.messages.find? (fun x => x.id == mid) with
    | none => simp [edit, hf] at h
    | some m =>
      refine ⟨m, rfl, ?_⟩
      by_cases hsend : m.senderId = callerId
      · by_cases hdel : m.isDeleted = true
        · simp [edit, hf, hsend, hdel] at h
        · exact Bool.not_eq_true _ ▸ hdel
      · simp [edit, hf, hsend] at h

theorem edit_notFound_forbidden_deleted_witness :
    (edit ⟨[], 0⟩ 1 7 "new" = (.failed .notFound, ⟨[], 0⟩)) ∧
    (edit ⟨[⟨7, 3, 1, "old", "text", "meta", none, 1, false, false, 0⟩], 8⟩ 2 7 "new" =
      (.failed .forbidden,
       ⟨[⟨7, 3, 1, "old", "text", "meta", none, 1, false, false, 0⟩], 8⟩)) ∧
    (∃ m, (⟨[⟨7, 3, 1, "old", "text", "meta", none, 1, false, false, 0⟩], 8⟩ :
        MessageStore).messages.find? (fun x => x.id == 7) = some m ∧
      m.isDeleted = false) :=
  ⟨(edit_notFound_forbidden_deleted ⟨[], 0⟩ 1 7 "new").1 (by decide),
   (edit_notFound_forbidden_deleted
      ⟨[⟨7, 3, 1, "old", "text", "meta", none, 1, false, false, 0⟩], 8⟩ 2 7 "new").2.1
      ⟨7, 3, 1, "old", "text", "meta", none, 1, false, false, 0⟩ (by decide) (by decide),
   (edit_notFound_forbidden_deleted
      ⟨[⟨7, 3, 1, "old", "text", "meta", none, 1, false, false, 0⟩], 8⟩ 1 7 "new").2.2
      ⟨7, 3, 1, "new", "text", "meta", none, 1, true, false, 0⟩
      ⟨[⟨7, 3, 1, "new", "text", "meta", none, 1, true, false, 0⟩], 8⟩ (by decide)⟩

/-! ## Theorems for the Connection Handler dedup claim -/

/-- C6 as stated is false: a Connection Handler whose dedup window already
contains the event's message id forwards nothing on either delivery, so
delivering the same bus event twice to such a state produces zero
client-visible `message-new` events, not exactly one. -/
theorem deliverTwice_already_seen_counterexample :
    ¬ ((deliverTwice ⟨[5]⟩ ⟨[], 0⟩ ⟨5, 1, 2, "x"⟩).2.2.length = 1) := by
  decide

/-- C6 amended: for every Connection Handler state whose dedup window does
not yet contain the event's message id, delivering the same bus message
event twice produces exactly one client-visible `message-new` event, and
the handler performs no Message Store append at all (so the duplicate
cannot cause a second append of the message). -/
theorem deliverTwice_dedup (h : ConnHandler) (store : MessageStore)
    (ev : BusMessageEvent) (hnew : ev.messageId ∉ h.seenIds) :
    (deliverTwice h store ev).2.2 = [.messageNew ev] ∧
    (deliverTwice h store ev).2.1 = store := by
  constructor <;> simp [deliverTwice, onBusMessage, hnew]

theorem deliverTwice_dedup_witness :
    (deliverTwice ⟨[]⟩ ⟨[], 0⟩ ⟨5, 1, 2, "x"⟩).2.2 =
      [.messageNew ⟨5, 1, 2, "x"⟩] ∧
    (deliverTwice ⟨[]⟩ ⟨[], 0⟩ ⟨5, 1, 2, "x"⟩).2.1 = ⟨[], 0⟩ :=
  deliverTwice_dedup ⟨[]⟩ ⟨[], 0⟩ ⟨5, 1, 2, "x"⟩ (by decide)

/-! ## Theorems for the append-ordering claim -/

theorem convCount_append (s : MessageStore) (m : ChatMessage) (now : Nat)
    (cid : Nat) :
    convCount (append s m now).2 cid =
      convCount s cid + (if m.conversationId = cid then 1 else 0) := by
  simp only [convCount, append, List.filter_append, List.length_append]
  by_cases h : m.conversationId = cid <;> simp [h]

theorem reaches_convCount_le {s t : MessageStore} (h : Reaches s t) (cid : Nat) :
    convCount s cid ≤ convCount t cid := by
  induction h with
  | refl => exact Nat.le_refl _
  | step v m now hv ih =>
    have := convCount_append v m now cid
    omega

/-- C3: the sequence position `append` assigns does not depend on the
wall-clock time, and whenever `append(m1)` has returned and, after any
further appends, `append(m2)` is called on the same conversation, the
earlier message's sequence position is strictly smaller — the
per-conversation sequence is monotonically increasing and orders messages
independently of timestamps. -/
theorem append_sequence_monotone (s : MessageStore) (m1 : ChatMessage)
    (n1 n1' : Nat) (m2 : ChatMessage) (n2 : Nat) (t : MessageStore) :
    ((append s m1 n1).1.seq = (append s m1 n1').1.seq) ∧
    (Reaches (append s m1 n1).2 t → m2.conversationId = m1.conversationId →
      (append s m1 n1).1.seq < (append t m2 n2).1.seq) := by
  constructor
  · rfl
  · intro hr hc
    have h1 : (append s m1 n1).1.seq = convCount s m1.conversationId + 1 := rfl
    have h2 : (append t m2 n2).1.seq = convCount t m2.conversationId + 1 := rfl
    have h3 : convCount (append s m1 n1).2 m1.conversationId =
        convCount s m1.conversationId + 1 := by
      rw [convCount_append]
      simp
    have h4 := reaches_convCount_le hr m1.conversationId
    rw [h1, h2, hc]
    omega

theorem append_sequence_monotone_witness :
    ((append ⟨[], 0⟩ ⟨1, 2, "a", "text", "m", none⟩ 4).1.seq =
      (append ⟨[], 0⟩ ⟨1, 2, "a", "text", "m", none⟩ 9).1.seq) ∧
    ((append ⟨[], 0⟩ ⟨1, 2, "a", "text", "m", none⟩ 4).1.seq <
      (append (append (append ⟨[], 0⟩ ⟨1, 2, "a", "text", "m", none⟩ 4).2
          ⟨1, 3, "b", "text", "m", none⟩ 7).2 ⟨1, 2, "c", "text", "m", none⟩ 8).1.seq) :=
  ⟨(append_sequence_monotone ⟨[], 0⟩ ⟨1, 2, "a", "text", "m", none⟩ 4 9
      ⟨1, 2, "c", "text", "m", none⟩ 8
      (append (append ⟨[], 0⟩ ⟨1, 2, "a", "text", "m", none⟩ 4).2
        ⟨1, 3, "b", "text", "m", none⟩ 7).2).1,
   (append_sequence_monotone ⟨[], 0⟩ ⟨1, 2, "a", "text", "m", none⟩ 4 9
      ⟨1, 2, "c", "text", "m", none⟩ 8
      (append (append ⟨[], 0⟩ ⟨1, 2, "a", "text", "m", none⟩ 4).2
        ⟨1, 3, "b", "text", "m", none⟩ 7).2).2
      (Reaches.step _ _ ⟨1, 3, "b", "text", "m", none⟩ 7 (Reaches.refl _)) rfl⟩

/-! ## Theorems for the pagination round-trip claim -/

theorem drop_range' (d a n : Nat) :
    (List.range' a n).drop d = List.range' (a + d) (n - d) := by
  induction n generalizing a d with
  | zero => simp
  | succ n ih =>
    cases d with
    | zero => simp
    | succ d =>
      rw [List.range'_succ, List.drop_succ_cons, ih]
      congr 1 <;> omega

theorem convSeqs_append (s : MessageStore) (m : ChatMessage) (now : Nat)
    (cid : Nat) :
    convSeqs (append s m now).2 cid =
      convSeqs s cid ++
        (if m.conversationId = cid then [convCount s m.conversationId + 1]
         else []) := by
  simp only [convSeqs, append, List.filter_append, List.map_append]
  by_cases h : m.conversationId = cid
  · simp [h]
  · simp [h]

theorem seqWF_append (s : MessageStore) (m : ChatMessage) (now : Nat) (cid : Nat)
    (h : SeqWellFormed s cid) : SeqWellFormed (append s m now).2 cid := by
  unfold SeqWellFormed at h ⊢
  rw [convSeqs_append, convCount_append, h]
  by_cases hc : m.conversationId = cid
  · subst hc
    rw [if_pos rfl, if_pos rfl, List.range'_concat]
    simp [Nat.add_comm]
  · simp [hc]

theorem applyAppends_cons (s : MessageStore) (p : ChatMessage × Nat)
    (batch : List (ChatMessage × Nat)) :
    applyAppends s (p :: batch) = applyAppends (append s p.1 p.2).2 batch := rfl

theorem seqWF_applyAppends (cid : Nat) (batch : List (ChatMessage × Nat)) :
    ∀ s : MessageStore, SeqWellFormed s cid →
      SeqWellFormed (applyAppends s batch) cid := by
  induction batch with
  | nil => intro s h; exact h
  | cons p rest ih =>
    intro s h
    rw [applyAppends_cons]
    exact ih _ (seqWF_append _ _ _ _ h)

theorem mem_applyAppends (x : StoredMessage) (batch : List (ChatMessage × Nat)) :
    ∀ s : MessageStore, x ∈ s.messages → x ∈ (applyAppends s batch).messages := by
  induction batch with
  | nil => intro s h; exact h
  | cons p rest ih =>
    intro s h
    rw [applyAppends_cons]
    exact ih _ (List.mem_append_left _ h)

theorem convCount_applyAppends_le (cid : Nat) (batch : List (ChatMessage × Nat)) :
    ∀ s : MessageStore, convCount s cid ≤ convCount (applyAppends s batch) cid := by
  induction batch with
  | nil => intro s; exact Nat.le_refl _
  | cons p rest ih =>
    intro s
    rw [applyAppends_cons]
    have h1 := convCount_append s p.1 p.2 cid
    have h2 := ih (append s p.1 p.2).2
    omega

theorem seq_pos (s : MessageStore) (cid : Nat) (m : StoredMessage)
    (hwf : SeqWellFormed s cid) (hm : m ∈ s.messages)
    (hcid : m.conversationId = cid) : 1 ≤ m.seq := by
  have h1 : m ∈ s.messages.filter (fun x => x.conversationId == cid) :=
    List.mem_filter.mpr ⟨hm, by simp [hcid]⟩
  have h2 : m.seq ∈ convSeqs s cid := List.mem_map_of_mem _ h1
  rw [hwf] at h2
  exact (List.mem_range'_1.mp h2).1

theorem map_seq_filter_lt (c : Nat) (l : List StoredMessage) :
    (l.filter (fun m => decide (m.seq < c))).map (fun m => m.seq)
      = (l.map (fun m => m.seq)).filter (fun k => decide (k < c)) := by
  induction l with
  | nil => rfl
  | cons x rest ih =>
    by_cases h : x.seq < c
    · simp [List.filter_cons, h, ih]
    · simp [List.filter_cons, h, ih]

theorem filter_lt_range' (n : Nat) :
    ∀ c : Nat, c ≤ n + 1 →
      (List.range' 1 n).filter (fun k => decide (k < c)) = List.range' 1 (c - 1) := by
  induction n with
  | zero =>
    intro c hc
    have h0 : c - 1 = 0 := by omega
    simp [h0]
  | succ n ih =>
    intro c hc
    rw [List.range'_concat, List.filter_append]
    by_cases h : c ≤ n + 1
    · rw [ih c h]
      have hno : ¬(1 + 1 * n < c) := by omega
      simp [hno]
      omega
    · have hc2 : c = n + 2 := by omega
      subst hc2
      have h1 : (List.range' 1 n).filter (fun k => decide (k < n + 2))
          = List.range' 1 n := by
        rw [List.filter_eq_self]
        intro a ha
        have := List.mem_range'_1.mp ha
        simp
        omega
      have hyes : (1 + 1 * n < n + 2) := by omega
      rw [h1, List.filter_cons_of_pos (by simpa using hyes), List.filter_nil]
      rw [show n + 2 - 1 = n + 1 from rfl, List.range'_concat]

theorem map_seq_fetchPage (s : MessageStore) (cid cursor limit : Nat)
    (hwf : SeqWellFormed s cid) (hc : cursor ≤ convCount s cid + 1) :
    (fetchPage s cid cursor limit).map (fun m => m.seq)
      = ((List.range' 1 (cursor - 1)).reverse).take limit := by
  unfold fetchPage
  rw [List.map_take, List.map_reverse]
  have hsplit : s.messages.filter
        (fun m => m.conversationId == cid && decide (m.seq < cursor))
      = (s.messages.filter (fun m => m.conversationId == cid)).filter
          (fun m => decide (m.seq < cursor)) := by
    rw [List.filter_filter]
    refine List.filter_congr ?_
    intro x hx
    rw [Bool.and_comm]
  rw [hsplit, map_seq_filter_lt,
    show (s.messages.filter (fun m => m.conversationId == cid)).map
        (fun m => m.seq) = convSeqs s cid from rfl,
    hwf, filter_lt_range' _ _ hc]

theorem count_fetchPage (s : MessageStore) (cid cursor limit : Nat)
    (m : StoredMessage) (hwf : SeqWellFormed s cid)
    (hc : cursor ≤ convCount s cid + 1) (hm : m ∈ s.messages)
    (hcid : m.conversationId = cid) :
    (fetchPage s cid cursor limit).count m
      = if 1 + (cursor - 1 - limit) ≤ m.seq ∧ m.seq < cursor then 1 else 0 := by
  have hmap := map_seq_fetchPage s cid cursor limit hwf hc
  rw [List.take_reverse, List.length_range', drop_range'] at hmap
  have hnodupseq : ((fetchPage s cid cursor limit).map (fun x => x.seq)).Nodup := by
    rw [hmap, List.nodup_reverse]
    exact List.nodup_range' _ _
  have hnodup : (fetchPage s cid cursor limit).Nodup :=
    List.Nodup.of_map _ hnodupseq
  by_cases hwin : 1 + (cursor - 1 - limit) ≤ m.seq ∧ m.seq < cursor
  · rw [if_pos hwin]
    have hseqmem : m.seq ∈ (fetchPage s cid cursor limit).map (fun x => x.seq) := by
      rw [hmap, List.mem_reverse, List.mem_range'_1]
      omega
    obtain ⟨x, hxpage, hxseq⟩ := List.mem_map.mp hseqmem
    have hxrev : x ∈ (s.messages.filter
        (fun y => y.conversationId == cid && decide (y.seq < cursor))).reverse :=
      (List.take_sublist _ _).subset hxpage
    have hxfl := List.mem_reverse.mp hxrev
    have hxmem : x ∈ s.messages := (List.mem_filter.mp hxfl).1
    have hxcid : x.conversationId = cid := by
      have h := (List.mem_filter.mp hxfl).2
      simp only [Bool.and_eq_true, beq_iff_eq, decide_eq_true_eq] at h
      exact h.1
    have hnode : ((s.messages.filter (fun y => y.conversationId == cid)).map
        (fun y => y.seq)).Nodup := by
      rw [show (s.messages.filter (fun y => y.conversationId == cid)).map
          (fun y => y.seq) = convSeqs s cid from rfl, hwf]
      exact List.nodup_range' _ _
    have hxf : x ∈ s.messages.filter (fun y => y.conversationId == cid) :=
      List.mem_filter.mpr ⟨hxmem, by simp [hxcid]⟩
    have hmf : m ∈ s.messages.filter (fun y => y.conversationId == cid) :=
      List.mem_filter.mpr ⟨hm, by simp [hcid]⟩
    have hxm : x = m := List.inj_on_of_nodup_map hnode hxf hmf hxseq
    rw [hxm] at hxpage
    have hcle := List.nodup_iff_count_le_one.mp hnodup m
    have hcpos : 0 < (fetchPage s cid cursor limit).count m :=
      List.count_pos_iff.mpr hxpage
    omega
  · rw [if_neg hwin, List.count_eq_zero]
    intro hmem
    have hh : m.seq ∈ (fetchPage s cid cursor limit).map (fun x => x.seq) :=
      List.mem_map_of_mem _ hmem
    rw [hmap, List.mem_reverse, List.mem_range'_1] at hh
    omega

theorem getLast_fetchPage (s : MessageStore) (cid cursor limit : Nat)
    (hwf : SeqWellFormed s cid) (hc : cursor ≤ convCount s cid + 1)
    (h2 : 2 ≤ cursor) (hl : 1 ≤ limit) :
    ∃ last, (fetchPage s cid cursor limit).getLast? = some last ∧
      last.seq = 1 + (cursor - 1 - limit) := by
  have hmap := map_seq_fetchPage s cid cursor limit hwf hc
  rw [List.take_reverse, List.length_range', drop_range'] at hmap
  have hlast : ((fetchPage s cid cursor limit).map (fun x => x.seq)).getLast?
      = some (1 + (cursor - 1 - limit)) := by
    rw [hmap, List.getLast?_reverse, List.head?_range']
    rw [if_neg (by omega)]
  rw [List.getLast?_map] at hlast
  cases hp : (fetchPage s cid cursor limit).getLast? with
  | none => rw [hp] at hlast; simp at hlast
  | some last =>
    rw [hp] at hlast
    simp only [Option.map_some'] at hlast
    exact ⟨last, rfl, by injection hlast⟩

theorem fetchPage_cursor_le_one (s : MessageStore) (cid cursor limit : Nat)
    (hwf : SeqWellFormed s cid) (h1 : cursor ≤ 1) :
    fetchPage s cid cursor limit = [] := by
  have hmap := map_seq_fetchPage s cid cursor limit hwf (by omega)
  have h0 : cursor - 1 = 0 := by omega
  rw [h0] at hmap
  simp only [List.range'_zero, List.reverse_nil, List.take_nil,
    List.map_eq_nil_iff] at hmap
  exact hmap

theorem count_runTraversal (cid limit : Nat) (m : StoredMessage) (hl : 1 ≤ limit)
    (hcid : m.conversationId = cid) :
    ∀ (sched : List (List (ChatMessage × Nat))) (s : MessageStore) (cursor : Nat),
      SeqWellFormed s cid → m ∈ s.messages →
      cursor ≤ convCount s cid + 1 →
      (m.seq < cursor → cursor ≤ m.seq + sched.length * limit) →
      (runTraversal cid limit s cursor sched).count m
        = if m.seq < cursor then 1 else 0 := by
  intro sched
  induction sched with
  | nil =>
    intro s cursor hwf hm hc hpages
    simp only [runTraversal, List.count_nil]
    rw [if_neg]
    intro hlt
    have h := hpages hlt
    simp only [List.length_nil, Nat.zero_mul] at h
    omega
  | cons batch rest ih =>
    intro s cursor hwf hm hc hpages
    have hwf' := seqWF_applyAppends cid batch s hwf
    have hm' := mem_applyAppends m batch s hm
    have hccount := convCount_applyAppends_le cid batch s
    have hc' : cursor ≤ convCount (applyAppends s batch) cid + 1 := by omega
    have hseq1 : 1 ≤ m.seq := seq_pos _ cid m hwf' hm' hcid
    have hlen : (batch :: rest).length * limit
        = rest.length * limit + limit := by
      rw [List.length_cons, Nat.succ_mul]
    by_cases h2 : 2 ≤ cursor
    · obtain ⟨last, hlast, hlseq⟩ :=
        getLast_fetchPage (applyAppends s batch) cid cursor limit hwf' hc' h2 hl
      simp only [runTraversal]
      rw [hlast]
      simp only [List.count_append]
      rw [hlseq]
      rw [count_fetchPage (applyAppends s batch) cid cursor limit m hwf' hc' hm' hcid]
      rw [ih (applyAppends s batch) (1 + (cursor - 1 - limit)) hwf' hm' (by omega)]
      · split_ifs <;> omega
      · intro hlt
        have h := hpages (by omega)
        rw [hlen] at h
        omega
    · have hempty :=
        fetchPage_cursor_le_one (applyAppends s batch) cid cursor limit hwf' (by omega)
      simp only [runTraversal]
      rw [hempty]
      simp only [List.getLast?_nil, List.count_nil]
      rw [if_neg (by omega)]

/-- C5: round-trip of `append` and `fetchPage` — for every message
appended to a conversation and every page traversal started from a cursor
positioned before (above) that message's sequence position, with enough
pages scheduled, the returned pages contain the persisted message exactly
once, whatever batches of further appends land ahead of the cursor
between pages, and the persisted record carries content and metadata
identical to what `append` was given. -/
theorem append_fetchPage_roundtrip (s0 : MessageStore) (msg : ChatMessage)
    (now : Nat) (cursor limit : Nat) (sched : List (List (ChatMessage × Nat)))
    (hwf : SeqWellFormed s0 msg.conversationId) (hl : 1 ≤ limit)
    (hc1 : (append s0 msg now).1.seq < cursor)
    (hc2 : cursor ≤ convCount (append s0 msg now).2 msg.conversationId + 1)
    (hsched : cursor ≤ (append s0 msg now).1.seq + sched.length * limit) :
    (runTraversal msg.conversationId limit (append s0 msg now).2 cursor
        sched).count (append s0 msg now).1 = 1 ∧
    (append s0 msg now).1.conversationId = msg.conversationId ∧
    (append s0 msg now).1.senderId = msg.senderId ∧
    (append s0 msg now).1.content = msg.content ∧
    (append s0 msg now).1.contentType = msg.contentType ∧
    (append s0 msg now).1.encryptionMetadata = msg.encryptionMetadata ∧
    (append s0 msg now).1.replyTo = msg.replyTo := by
  refine ⟨?_, rfl, rfl, rfl, rfl, rfl, rfl⟩
  have hmem : (append s0 msg now).1 ∈ (append s0 msg now).2.messages := by
    simp [append]
  have hwf' := seqWF_append s0 msg now msg.conversationId hwf
  have h := count_runTraversal msg.conversationId limit (append s0 msg now).1 hl
    rfl sched (append s0 msg now).2 cursor hwf' hmem hc2 (fun _ => hsched)
  rw [h, if_pos hc1]

theorem append_fetchPage_roundtrip_witness :
    (runTraversal 1 1
        (append ⟨[], 0⟩ ⟨1, 2, "hello", "text", "meta", none⟩ 3).2 2
        [[(⟨1, 4, "later", "text", "meta", none⟩, 5)], []]).count
      (append ⟨[], 0⟩ ⟨1, 2, "hello", "text", "meta", none⟩ 3).1 = 1 ∧
    (append ⟨[], 0⟩ ⟨1, 2, "hello", "text", "meta", none⟩ 3).1.conversationId = 1 ∧
    (append ⟨[], 0⟩ ⟨1, 2, "hello", "text", "meta", none⟩ 3).1.senderId = 2 ∧
    (append ⟨[], 0⟩ ⟨1, 2, "hello", "text", "meta", none⟩ 3).1.content = "hello" ∧
    (append ⟨[], 0⟩ ⟨1, 2, "hello", "text", "meta", none⟩ 3).1.contentType = "text" ∧
    (append ⟨[], 0⟩ ⟨1, 2, "hello", "text", "meta", none⟩ 3).1.encryptionMetadata = "meta" ∧
    (append ⟨[], 0⟩ ⟨1, 2, "hello", "text", "meta", none⟩ 3).1.replyTo = none :=
  append_fetchPage_roundtrip ⟨[], 0⟩ ⟨1, 2, "hello", "text", "meta", none⟩ 3 2 1
    [[(⟨1, 4, "later", "text", "meta", none⟩, 5)], []] rfl (by decide) (by decide)
    (by decide) (by decide)

end AjManagement
